import Mathlib

/-!
Verification development for the mittens warmup client core:
the template interpolator / request parser (`pkg/http`, file shown as
`src/unnamed/part_000`) and the gRPC client (`src/pkg/grpc/client.go`).

Strings are modelled as `List Char`.  Go's `regexp` package (RE2 syntax,
leftmost-first a.k.a. Perl matching semantics) is modelled by a small
regular-expression AST together with a fuelled backtracking matcher in
continuation-passing style; the four compiled patterns of the source are
transcribed into that AST below, each with a comment deriving the AST from
the pattern text.
-/

namespace Mittens

/-- Go `\w` (RE2 word character): `[0-9A-Za-z_]`. -/
def isWordCh (c : Char) : Bool :=
  (('0' ≤ c && c ≤ '9') || ('A' ≤ c && c ≤ 'Z') || ('a' ≤ c && c ≤ 'z') || c = '_')

/-- Go `\d`: `[0-9]`. -/
def isDigitCh (c : Char) : Bool := '0' ≤ c && c ≤ '9'

/-- Regular-expression AST.  `cls` is a character class given by a decidable
predicate; `star` is greedy zero-or-more; `group n r` records the text
matched by `r` as capture group `n`.  Alternation is not needed: the four
source patterns use only literals, classes, groups and repetition. -/
inductive RE where
  | eps : RE
  | lit : Char → RE
  | cls : (Char → Bool) → RE
  | seq : RE → RE → RE
  | star : RE → RE
  | group : Nat → RE → RE

namespace RE

/-- `a` followed by zero or more `a` — RE2 `a+`. -/
def plus (a : RE) : RE := .seq a (.star a)

/-- Sequence of character literals. -/
def lits (s : List Char) : RE := s.foldr (fun c r => .seq (.lit c) r) .eps

end RE

/-- Capture environment: group index paired with captured text; the most
recent binding (head of the list) wins, unset groups read as `[]`, which is
Go's `FindStringSubmatch` behaviour (unmatched groups come back as ""). -/
def Caps := List (Nat × List Char)

/-- Read capture group `n` (empty if the group never matched). -/
def capGet (cs : Caps) (n : Nat) : List Char :=
  match cs.find? (fun p => p.1 = n) with
  | some p => p.2
  | none => []

/-- Backtracking matcher in continuation-passing style, implementing
leftmost-first (Perl/Go non-POSIX) semantics: `star` greedily tries one more
iteration first and falls back to the continuation on failure, and an
iteration that consumes nothing ends the loop (RE2's empty-iteration rule).
`fuel` decreases on every recursive step (structural recursion, so the
matcher evaluates definitionally); running out of fuel fails the current
branch.  A search path either descends the fixed regex structure or makes
progress through the input, so for the four source patterns (size below
100) a fuel of `(length + 16) * 100` can never be exhausted and the matcher
agrees with Go. -/
def mtch : Nat → RE → List Char → Caps →
    (List Char → Caps → Option (Caps × List Char)) → Option (Caps × List Char)
  | 0, _, _, _, _ => none
  | fuel + 1, re, s, cp, k =>
    match re with
    | .eps => k s cp
    | .lit c =>
      match s with
      | [] => none
      | x :: xs => if x = c then k xs cp else none
    | .cls p =>
      match s with
      | [] => none
      | x :: xs => if p x then k xs cp else none
    | .seq a b => mtch fuel a s cp (fun s' cp' => mtch fuel b s' cp' k)
    | .group n a =>
      mtch fuel a s cp (fun s' cp' =>
        k s' ((n, s.take (s.length - s'.length)) :: cp'))
    | .star a =>
      (mtch fuel a s cp (fun s' cp' =>
        if s'.length < s.length then mtch fuel (.star a) s' cp' k
        else k s' cp')).orElse (fun _ => k s cp)

/-- Match `re` at the front of `s`; on success return the captures and the
unconsumed rest of the input. -/
def findAt (re : RE) (s : List Char) : Option (Caps × List Char) :=
  mtch ((s.length + 16) * 100) re s [] (fun s' cp => some (cp, s'))

/-- Leftmost match of `re` in `s`: the text before the match, the matched
text, the captures and the rest.  Models `FindStringSubmatch` position
search and the scan step of `ReplaceAllStringFunc`. -/
def findLeftmost (re : RE) (s : List Char) :
    Option (List Char × List Char × Caps × List Char) :=
  match findAt re s with
  | some (cp, rest) => some ([], s.take (s.length - rest.length), cp, rest)
  | none =>
    match s with
    | [] => none
    | c :: cs =>
      match findLeftmost re cs with
      | some (pre, m, cp, rest) => some (c :: pre, m, cp, rest)
      | none => none

/-- Go `regexp.FindStringSubmatch`: captures of the leftmost match (`none`
when there is no match, which the source compares against `nil`). -/
def findSubmatch (re : RE) (s : List Char) : Option Caps :=
  match findLeftmost re s with
  | some (_, _, cp, _) => some cp
  | none => none

/-!
The four compiled patterns of the source, transcribed token by token.
-/

/-- Character class appearing inside `templatePlaceholderRegex`.  The source
pattern text between the outer parentheses is `\w+(?:[\|(?:[\w+-=,]+)]*)`:
RE2 scans the class starting at the first `[` up to the first unescaped `]`,
so the class literally contains `\|`, `(`, `?`, `:`, `[`, `\w` and then the
range `+-=` (code points 0x2B..0x3D, i.e. `+,-./0123456789:;<=`) and `,`. -/
def bigClassCh (c : Char) : Bool :=
  (c = '|' || c = '(' || c = '?' || c = ':' || c = '[' || isWordCh c ||
    ('+' ≤ c && c ≤ '='))

/-- Source line 47:
`templatePlaceholderRegex = regexp.MustCompile("\x7b\\$(\\w+(?:[\\|(?:[\\w+-=,]+)]*)\x7d")`.
Reading the RE2 pattern `{\$(\w+(?:[\|(?:[\w+-=,]+)]*)}` left to right:
literal `{`, literal `$`, capture group 1 containing `\w+`, then a
non-capturing group holding one-or-more of the character class described at
`bigClassCh`, then a literal `]` repeated zero or more times (the lone `]`
after the `(?:...)` group closes no class, so RE2 treats it as a literal),
and finally the literal `}`. -/
def templatePlaceholderRegex : RE :=
  .seq (.lit '{') (.seq (.lit '$')
    (.seq (.group 1
      (.seq (RE.plus (.cls isWordCh))
        (.seq (RE.plus (.cls bigClassCh)) (.star (.lit ']')))))
    (.lit '}')))

/-- Source line 48:
`templateRangeRegex = regexp.MustCompile("\x7b\\$range\\|min=(?P<Min>\\d+),max=(?P<Max>\\d+)\x7d")`. -/
def templateRangeRegex : RE :=
  .seq (RE.lits "\x7b$range|min=".toList)
    (.seq (.group 1 (RE.plus (.cls isDigitCh)))
      (.seq (RE.lits ",max=".toList)
        (.seq (.group 2 (RE.plus (.cls isDigitCh))) (.lit '}'))))

/-- Source line 49:
`templateElementsRegex = regexp.MustCompile("\x7b\\$random\\|(?P<Elements>[,\\w-]+)\x7d")`.
The class `[,\w-]` holds `,`, word characters and a literal `-`. -/
def templateElementsRegex : RE :=
  .seq (RE.lits "\x7b$random|".toList)
    (.seq (.group 1 (RE.plus (.cls (fun c => c = ',' || isWordCh c || c = '-'))))
      (.lit '}'))

/-- RE2 `[+-]\d+`: a sign character followed by one or more digits. -/
def signedNum : RE :=
  .seq (.cls (fun c => c = '+' || c = '-')) (RE.plus (.cls isDigitCh))

/-- Source line 50:
`templateDatesRegex = regexp.MustCompile("\x7b\\$currentDate(?:\\|(?:days(?P<Days>[+-]\\d+))*(?:[,]*months(?P<Months>[+-]\\d+))*(?:[,]*years(?P<Years>[+-]\\d+))*)*\x7d")`.
Pattern `{\$currentDate(?:\|(?:days([+-]\d+))*(?:[,]*months([+-]\d+))*(?:[,]*years([+-]\d+))*)*}`:
the literal prefix, then zero or more repetitions of [a literal `|` followed
by three starred groups: `days` with a signed number (capture 1), then any
number of commas before `months` with a signed number (capture 2), likewise
for `years` (capture 3)], then the literal `}`.  Note the offsets use sign
syntax (`days+1`); there is no `=` anywhere in this pattern. -/
def templateDatesRegex : RE :=
  .seq (RE.lits "\x7b$currentDate".toList)
    (.seq (.star (.seq (.lit '|')
      (.seq (.star (.seq (RE.lits "days".toList) (.group 1 signedNum)))
        (.seq (.star (.seq (.star (.lit ','))
            (.seq (RE.lits "months".toList) (.group 2 signedNum))))
          (.star (.seq (.star (.lit ','))
            (.seq (RE.lits "years".toList) (.group 3 signedNum))))))))
    (.lit '}'))

/-!
Go standard-library string helpers used by the source, modelled on
`List Char`.
-/

/-- Does `pat` occur at the head of `s`? -/
def startsWithL : List Char → List Char → Bool
  | [], _ => true
  | _ :: _, [] => false
  | p :: ps, c :: cs => p = c && startsWithL ps cs

/-- Go `strings.Contains(s, pat)`: does `pat` occur as a contiguous
substring of `s`? -/
def containsL (s pat : List Char) : Bool :=
  match s with
  | [] => startsWithL pat []
  | _ :: cs => startsWithL pat s || containsL cs pat

/-- Split `s` at the first occurrence of `sep`, if any. -/
def breakAt (sep : Char) : List Char → Option (List Char × List Char)
  | [] => none
  | c :: cs =>
    if c = sep then some ([], cs)
    else
      match breakAt sep cs with
      | some (pre, post) => some (c :: pre, post)
      | none => none

/-- Auxiliary scanner for `goSplit`: `acc` is the current part, reversed. -/
def goSplitAux (sep : Char) : List Char → List Char → List (List Char)
  | [], acc => [acc.reverse]
  | c :: cs, acc =>
    if c = sep then acc.reverse :: goSplitAux sep cs []
    else goSplitAux sep cs (c :: acc)

/-- Go `strings.Split(s, sep)` for a one-character separator: split around
every occurrence; always returns at least one (possibly empty) part. -/
def goSplit (sep : Char) (s : List Char) : List (List Char) :=
  goSplitAux sep s []

/-- Go `strings.SplitN(s, sep, n)` for a one-character separator and
`n ≥ 1`: at most `n` parts, the last part carries the unsplit remainder. -/
def goSplitN (sep : Char) : Nat → List Char → List (List Char)
  | 0, _ => []
  | 1, s => [s]
  | n + 2, s =>
    match breakAt sep s with
    | none => [s]
    | some (pre, post) => pre :: goSplitN sep (n + 1) post

/-- Go `strings.ToUpper`, modelled by the per-rune simple upper-case
mappings that can reach ASCII: the ASCII letters `a..z`, plus the only two
non-ASCII runes whose upper-case IS an ASCII letter — `ſ` (U+017F → `S`)
and `ı` (U+0131 → `I`).  Every other rune is left unchanged here while Go
maps it to another non-ASCII rune, so membership in the (all-ASCII) verb
set, and hence acceptance and the stored `Method` of every accepted
request, agree with Go on all inputs; only the error text echoed for a
rejected non-ASCII method can differ, and the theorems below never pin
that text down. -/
def goToUpper (s : List Char) : List Char :=
  s.map (fun c =>
    if 'a' ≤ c && c ≤ 'z' then Char.ofNat (c.toNat - 32)
    else if c = 'ſ' then 'S'
    else if c = 'ı' then 'I'
    else c)

/-- Go two's-complement `int64` wraparound on the unbounded integers. -/
def wrap64 (x : Int) : Int := (x + 2 ^ 63) % 2 ^ 64 - 2 ^ 63

/-- Go `strconv.Atoi` with the error ignored, which is how every call site
in the source uses it: the parsed value on success, `0` on a syntax error,
and — per `ParseInt`'s `ErrRange` behaviour, since the error is dropped —
the value clamped to `MaxInt64`/`MinInt64` when the digits overflow. -/
def goAtoi (s : List Char) : Int :=
  let digits : List Char → Option Nat := fun ds =>
    if ds = [] then none
    else if ds.all isDigitCh then
      some (ds.foldl (fun a c => a * 10 + (c.toNat - '0'.toNat)) 0)
    else none
  let clamp : Int → Int := fun n =>
    if n < -(2 ^ 63) then -(2 ^ 63) else if n > 2 ^ 63 - 1 then 2 ^ 63 - 1 else n
  match s with
  | '+' :: ds => match digits ds with | some n => clamp (n : Int) | none => 0
  | '-' :: ds => match digits ds with | some n => clamp (-(n : Int)) | none => 0
  | ds => match digits ds with | some n => clamp (n : Int) | none => 0

/-- Go `rand.Intn(n)` under an abstract random source `rng`: panics
(modelled as `none`) when `n ≤ 0`, otherwise some value below `n`; theorems
assume of `rng` only that `rng n < n` for positive `n`. -/
def goIntn (rng : Nat → Nat) (n : Int) : Option Nat :=
  if n ≤ 0 then none else some (rng n.toNat)

/-!
Calendar model for `time.Now().AddDate(...).Format("2006-01-02")`.  Go's
`time.Date` normalizes an out-of-range month into the year and an
out-of-range day through an absolute-day count in the proleptic Gregorian
calendar; `Format` converts that count back to a civil date.  This is
modelled with the standard civil-from-days / days-from-civil conversions,
which are extensionally the Gregorian day-number maps Go computes.  All
divisors are positive, so `Int.ediv`/`Int.emod` give the floor behaviour
these formulas need.
-/

/-- A civil (proleptic Gregorian) calendar date. -/
structure GoDate where
  year : Int
  month : Int
  day : Int
deriving DecidableEq, Repr

/-- Gregorian leap-year rule (as in Go `time.isLeap`). -/
def isLeap (y : Int) : Bool :=
  (y % 4 = 0 && y % 100 ≠ 0) || y % 400 = 0

/-- Number of days in a month of a given year (valid for `1 ≤ m ≤ 12`). -/
def daysInMonth (y m : Int) : Int :=
  if m = 2 then (if isLeap y then 29 else 28)
  else if m = 4 || m = 6 || m = 9 || m = 11 then 30
  else 31

/-- Day number (days since 1970-01-01) of a civil date; for `1 ≤ m ≤ 12`
this is the Gregorian day-number map that Go's `time` package uses
internally (the day component may be out of range, in which case the excess
simply adds to the count, exactly Go's `time.Date` normalization). -/
def goDaysFromCivil (y m d : Int) : Int :=
  let y' := if m ≤ 2 then y - 1 else y
  let era := y' / 400
  let yoe := y' - era * 400
  let mp := m + (if 2 < m then -3 else 9)
  let doy := (153 * mp + 2) / 5 + d - 1
  let doe := yoe * 365 + yoe / 4 - yoe / 100 + doy
  era * 146097 + doe - 719468

/-- Civil date of a day number (inverse Gregorian conversion, as performed
by Go's `Format` when it extracts year/month/day). -/
def goCivilFromDays (z : Int) : GoDate :=
  let z' := z + 719468
  let era := z' / 146097
  let doe := z' - era * 146097
  let yoe := (doe - doe / 1460 + doe / 36524 - doe / 146096) / 365
  let y := yoe + era * 400
  let doy := doe - (365 * yoe + yoe / 4 - yoe / 100)
  let mp := (5 * doy + 2) / 153
  let d := doy - (153 * mp + 2) / 5 + 1
  let m := mp + (if mp < 10 then 3 else -9)
  ⟨if m ≤ 2 then y + 1 else y, m, d⟩

/-- Go `t.AddDate(years, months, days)`: add the offsets component-wise,
then normalize — months fold into the year with floor semantics, and the day
offset is applied on the day-number line (Go `time.Date` rebuild). -/
def goAddDate (t : GoDate) (years months days : Int) : GoDate :=
  let m0 := t.month + months
  let y0 := t.year + years + (m0 - 1) / 12
  let m1 := (m0 - 1) % 12 + 1
  goCivilFromDays (goDaysFromCivil y0 m1 1 + (t.day - 1) + days)

/-- Decimal digits of `n`, left-padded with zeros to width `w`. -/
def padNat (w : Nat) (n : Nat) : List Char :=
  let s := (Nat.repr n).toList
  List.replicate (w - s.length) '0' ++ s

/-- Go `t.Format("2006-01-02")`: zero-padded 4-digit year, 2-digit month
and day, dash separated (a negative year would carry a leading sign, as in
Go's integer formatter). -/
def goFormatDate (t : GoDate) : List Char :=
  (if t.year < 0 then '-' :: padNat 4 (-t.year).toNat else padNat 4 t.year.toNat)
    ++ '-' :: padNat 2 t.month.toNat ++ '-' :: padNat 2 t.day.toNat

/-- Valid civil dates: the domain on which calendar claims are stated. -/
def ValidDate (t : GoDate) : Prop :=
  1 ≤ t.month ∧ t.month ≤ 12 ∧ 1 ≤ t.day ∧ t.day ≤ daysInMonth t.year t.month

instance (t : GoDate) : Decidable (ValidDate t) := by
  unfold ValidDate; infer_instance

/-- Modelled from the spec: “the calendar date exactly one day after the
date at call time” — the successor date in the civil calendar.  Used to
check the code's `AddDate(0, 0, 1)` against the claim's wording. -/
def nextDayCivil (t : GoDate) : GoDate :=
  if t.day < daysInMonth t.year t.month then ⟨t.year, t.month, t.day + 1⟩
  else if t.month < 12 then ⟨t.year, t.month + 1, 1⟩
  else ⟨t.year + 1, 1, 1⟩

/-- Verification gadget: the year-of-era recovery of `goCivilFromDays` is
in range and consistent at one day-of-era value.  (`Nat` subtraction here
agrees with the `Int` subtraction in `goCivilFromDays` because
`doe / 1460 ≤ doe` and `yoe / 100 ≤ 365 * yoe`.) -/
def civilChk (doe : Nat) : Bool :=
  let yoe := (doe - doe / 1460 + doe / 36524 - doe / 146096) / 365
  let g := 365 * yoe + yoe / 4 - yoe / 100
  decide (yoe ≤ 399) && decide (g ≤ doe) && decide (doe ≤ g + 365) &&
    (decide (yoe = 399) ||
      decide (doe < 365 * (yoe + 1) + (yoe + 1) / 4 - (yoe + 1) / 100))

/-- Verification gadget: `civilChk` over `[lo, lo + n)`, by balanced
splitting so that kernel evaluation recurses only logarithmically deep.
The first argument is recursion depth budget. -/
def civilChkRange : Nat → Nat → Nat → Bool
  | 0, _, _ => false
  | _ + 1, _, 0 => true
  | _ + 1, lo, 1 => civilChk lo
  | d + 1, lo, n + 2 =>
    civilChkRange d lo ((n + 2) / 2) &&
      civilChkRange d (lo + (n + 2) / 2) (n + 2 - (n + 2) / 2)

/-!
The resolvers and the interpolation pass (source lines 86-163).
-/

/-- Call-time context: the civil date and Unix-nanosecond reading that
`time.Now()` would return, and the abstract random source behind
`rand.Intn`. -/
structure InterpCtx where
  now : GoDate
  nowUnixNanos : Int
  rng : Nat → Nat

/-- Source `dateElements` (lines 87-103): extract the Days/Months/Years
captures of `templateDatesRegex` (no match returns the input unchanged),
convert each with `Atoi` ignoring errors, and render now plus the offsets. -/
def dateElements (now : GoDate) (source : List Char) : List Char :=
  match findSubmatch templateDatesRegex source with
  | none => source
  | some r =>
    let days := capGet r 1
    let months := capGet r 2
    let years := capGet r 3
    goFormatDate (goAddDate now (goAtoi years) (goAtoi months) (goAtoi days))

/-- Source `timestampElements` (lines 106-110): Unix epoch milliseconds,
`UnixNano() / 1000000` with Go's truncating int64 division. -/
def timestampElements (unixNanos : Int) : List Char :=
  (Int.repr (Int.tdiv unixNanos 1000000)).toList

/-- Source `randomElements` (lines 113-124): split the Elements capture on
commas and index it with `rand.Intn(len(s))` (an out-of-range index or a
non-positive `Intn` argument is a Go panic, modelled as `none`). -/
def randomElements (rng : Nat → Nat) (source : List Char) : Option (List Char) :=
  match findSubmatch templateElementsRegex source with
  | none => some source
  | some r =>
    let s := goSplit ',' (capGet r 1)
    match goIntn rng (s.length : Int) with
    | none => none
    | some number => s.get? number

/-- Source `rangeElements` (lines 127-144): parse Min/Max, warn and return
the input unchanged when `min > max`, otherwise `rand.Intn(max-min+1) + min`.
`max - min + 1` is Go `int64` arithmetic, so it is taken through `wrap64`:
at `min = 0`, `max = MaxInt64` the width wraps to `-2^63` and `rand.Intn`
panics.  (`number + min` never wraps: when `Intn` returns, the width did
not wrap, so `number + min ≤ max ≤ MaxInt64` and `0 ≤ min ≤ number + min`.)
The second component collects `log.Printf` output. -/
def rangeElements (rng : Nat → Nat) (source : List Char) :
    Option (List Char) × List String :=
  match findSubmatch templateRangeRegex source with
  | none => (some source, [])
  | some r =>
    let mn := goAtoi (capGet r 1)
    let mx := goAtoi (capGet r 2)
    if mx < mn then (some source, ["Invalid range. min > max"])
    else
      match goIntn rng (wrap64 (mx - mn + 1)) with
      | none => (none, [])
      | some number => (some (Int.repr ((number : Int) + mn)).toList, [])

/-- The callback passed to `ReplaceAllStringFunc` (source lines 149-162):
dispatch on substring containment in the fixed order currentDate,
currentTimestamp, random, range; the final else branch returns `source` —
the WHOLE original string of the pass, not the matched placeholder. -/
def replaceCallback (ctx : InterpCtx) (source templateString : List Char) :
    Option (List Char) × List String :=
  if containsL templateString "currentDate".toList then
    (some (dateElements ctx.now templateString), [])
  else if containsL templateString "currentTimestamp".toList then
    (some (timestampElements ctx.nowUnixNanos), [])
  else if containsL templateString "random".toList then
    (randomElements ctx.rng templateString, [])
  else if containsL templateString "range".toList then
    rangeElements ctx.rng templateString
  else
    (some source, [])

/-- One scan of `ReplaceAllStringFunc`: repeatedly find the leftmost
`templatePlaceholderRegex` match in the unprocessed tail, replace it with
the callback's output and continue after it (replacement text is never
re-scanned).  `orig` is the full original string captured by the callback
closure; `fuel` bounds the number of replacements — every match starts with
`{` and so is non-empty, hence any fuel above the input length is enough. -/
def interpAux (ctx : InterpCtx) (orig : List Char) :
    Nat → List Char → Option (List Char) × List String
  | 0, s => (some s, [])
  | fuel + 1, s =>
    match findLeftmost templatePlaceholderRegex s with
    | none => (some s, [])
    | some (pre, m, _, rest) =>
      match replaceCallback ctx orig m with
      | (none, lg) => (none, lg)
      | (some rep, lg) =>
        match interpAux ctx orig fuel rest with
        | (none, lg') => (none, lg ++ lg')
        | (some tail, lg') => (some (pre ++ rep ++ tail), lg ++ lg')

/-- Source `interpolatePlaceholders` (lines 148-163), on `List Char`. -/
def interpolatePlaceholders (ctx : InterpCtx) (s : List Char) :
    Option (List Char) × List String :=
  interpAux ctx s (s.length + 1) s

/-- `interpolatePlaceholders` at `String` type, for readable statements. -/
def interpolateS (ctx : InterpCtx) (s : String) : Option String × List String :=
  match interpolatePlaceholders ctx s.toList with
  | (some l, lg) => (some (String.mk l), lg)
  | (none, lg) => (none, lg)

/-!
The request model and parser (source lines 27-84).
-/

/-- Source `Request` struct: method, path, optional body. -/
structure Request where
  Method : String
  Path : String
  Body : Option String
deriving DecidableEq, Repr

/-- Source `allowedHTTPMethods` (lines 34-44): the key set of the map. -/
def allowedHTTPMethods : List String :=
  ["GET", "HEAD", "POST", "PUT", "PATCH", "DELETE", "CONNECT", "OPTIONS", "TRACE"]

/-- Outcome of `ToHTTPRequest`: a Go panic during interpolation, an error
return (`InvalidDescriptor`), or a request together with the log lines the
interpolation pass printed. -/
inductive ParseResult where
  | panicked : ParseResult
  | invalid : String → ParseResult
  | ok : Request → List String → ParseResult
deriving DecidableEq, Repr

/-- Source `ToHTTPRequest` (lines 53-84): `SplitN(requestString, ":", 3)`,
require at least two parts, upper-case and validate the method, interpolate
path (and body when present). -/
def ToHTTPRequest (ctx : InterpCtx) (requestString : String) : ParseResult :=
  let parts := goSplitN ':' 3 requestString.toList
  if parts.length < 2 then
    .invalid ("invalid request flag: " ++ requestString ++
      ", expected format <http-method>:<path>[:body]")
  else
    let method := String.mk (goToUpper (parts.headD []))
    if allowedHTTPMethods.contains method = false then
      .invalid ("invalid request flag: " ++ requestString ++ ", method " ++
        method ++ " is not supported")
    else if parts.length = 2 then
      match interpolatePlaceholders ctx (parts.getD 1 []) with
      | (none, _) => .panicked
      | (some path, lg) => .ok ⟨method, String.mk path, none⟩ lg
    else
      match interpolatePlaceholders ctx (parts.getD 1 []) with
      | (none, _) => .panicked
      | (some path, lg1) =>
        match interpolatePlaceholders ctx (parts.getD 2 []) with
        | (none, _) => .panicked
        | (some body, lg2) =>
          .ok ⟨method, String.mk path, some (String.mk body)⟩ (lg1 ++ lg2)

/-!
The gRPC client (`src/pkg/grpc/client.go`), as a state machine over the
observable structure of `SendRequest`.  Network outcomes (dial/reflection,
parser construction, RPC invocation) are oracles supplied per call.
-/

/-- `response.Response` as consumed here: duration (nanoseconds), optional
error, protocol tag (source field `Type`, a reserved word here). -/
structure Response where
  Duration : Int
  Err : Option String
  Typ : String
deriving DecidableEq, Repr

/-- The client state that `SendRequest` can observe: whether the
`sync.Once` has fired, and whether `connect` succeeded and stored the
connection and descriptor source.  `connect`'s error is a LOCAL variable of
`SendRequest` in the source (line 87) — it is not part of this state. -/
structure ClientState where
  onceDone : Bool
  hasConn : Bool
deriving DecidableEq, Repr

/-- Source `NewClient` (lines 46-48): fresh once-guard, no connection. -/
def NewClient : ClientState := ⟨false, false⟩

/-- Oracle for one `SendRequest` call: outcome of `connect` (dial +
reflection setup), of `RequestParserAndFormatterFor`, and of `InvokeRPC`
(`none` meaning success), plus the wall-clock duration the invocation
takes. -/
structure GrpcWorld where
  connectResult : Except String Unit
  parserResult : Except String Unit
  invokeResult : Option String
  invokeDuration : Int

/-- What one call to `SendRequest` produced: the `Response`, whether a dial
attempt (the body of the once-guard) ran, whether `InvokeRPC` ran, and the
client state afterwards. -/
structure SendOutcome where
  resp : Response
  dialed : Bool
  invoked : Bool
  state' : ClientState
deriving DecidableEq, Repr

/-- Source `SendRequest` (lines 85-114).  `connErr` is the local variable
of line 87: it is set only when this very call runs the once-guarded
`connect`, so a call that finds the guard already fired proceeds with
`connErr = nil` whatever happened before.  Lines 110-113: both the failing
and the successful `InvokeRPC` branches return `Err: nil`. -/
def SendRequest (st : ClientState) (w : GrpcWorld) : SendOutcome :=
  let respType := "grpc"
  let fired :=
    if st.onceDone then none
    else some w.connectResult
  let st1 : ClientState :=
    match fired with
    | none => st
    | some (.ok _) => ⟨true, true⟩
    | some (.error _) => ⟨true, false⟩
  match fired with
  | some (.error e) =>
    { resp := ⟨0, some e, respType⟩, dialed := true, invoked := false, state' := st1 }
  | _ =>
    let dialed := fired.isSome
    match w.parserResult with
    | .error e =>
      { resp := ⟨0, some e, respType⟩, dialed := dialed, invoked := false, state' := st1 }
    | .ok _ =>
      match w.invokeResult with
      | some _ =>
        { resp := ⟨w.invokeDuration, none, respType⟩, dialed := dialed,
          invoked := true, state' := st1 }
      | none =>
        { resp := ⟨w.invokeDuration, none, respType⟩, dialed := dialed,
          invoked := true, state' := st1 }

/-!
Helper lemmas.
-/

theorem interpAux_found (ctx : InterpCtx) (orig : List Char) (fuel : Nat)
    (s pre m rest : List Char) (cp : Caps)
    (hf : findLeftmost templatePlaceholderRegex s = some (pre, m, cp, rest)) :
    interpAux ctx orig (fuel + 1) s =
      match replaceCallback ctx orig m with
      | (none, lg) => (none, lg)
      | (some rep, lg) =>
        match interpAux ctx orig fuel rest with
        | (none, lg') => (none, lg ++ lg')
        | (some tail, lg') => (some (pre ++ rep ++ tail), lg ++ lg') := by
  simp only [interpAux, hf]

theorem goSplitAux_length_pos (sep : Char) (s acc : List Char) :
    0 < (goSplitAux sep s acc).length := by
  induction s generalizing acc with
  | nil => simp [goSplitAux]
  | cons c cs ih =>
    simp only [goSplitAux]
    split
    · simp
    · exact ih _

theorem goSplit_length_pos (sep : Char) (s : List Char) :
    0 < (goSplit sep s).length :=
  goSplitAux_length_pos sep s []

/-- A successful matcher run hands its continuation a suffix of the input:
whatever `mtch` consumed is a prefix `u` of `s`. -/
theorem mtch_split : ∀ (fuel : Nat) (re : RE) (s : List Char) (cp : Caps)
    (k : List Char → Caps → Option (Caps × List Char)) (r : Caps × List Char),
    mtch fuel re s cp k = some r →
    ∃ u s' cp', s = u ++ s' ∧ k s' cp' = some r := by
  intro fuel
  induction fuel with
  | zero => intro re s cp k r h; simp [mtch] at h
  | succ n ih =>
    intro re s cp k r h
    cases re with
    | eps => exact ⟨[], s, cp, rfl, h⟩
    | lit c =>
      cases s with
      | nil => simp [mtch] at h
      | cons x xs =>
        simp only [mtch] at h
        by_cases hx : x = c
        · rw [if_pos hx] at h; exact ⟨[x], xs, cp, rfl, h⟩
        · rw [if_neg hx] at h; simp at h
    | cls p =>
      cases s with
      | nil => simp [mtch] at h
      | cons x xs =>
        simp only [mtch] at h
        by_cases hx : p x
        · rw [if_pos hx] at h; exact ⟨[x], xs, cp, rfl, h⟩
        · rw [if_neg hx] at h; simp at h
    | seq a b =>
      simp only [mtch] at h
      obtain ⟨u, s', cp', hs, hk⟩ := ih a s cp _ r h
      obtain ⟨u', s'', cp'', hs', hk'⟩ := ih b s' cp' _ r hk
      exact ⟨u ++ u', s'', cp'', by rw [hs, hs', List.append_assoc], hk'⟩
    | group g a =>
      simp only [mtch] at h
      obtain ⟨u, s', cp', hs, hk⟩ := ih a s cp _ r h
      exact ⟨u, s', (g, s.take (s.length - s'.length)) :: cp', hs, hk⟩
    | star a =>
      simp only [mtch] at h
      cases hcase : mtch n a s cp (fun s' cp' =>
          if s'.length < s.length then mtch n (.star a) s' cp' k else k s' cp') with
      | none =>
        rw [hcase] at h
        simp [Option.orElse] at h
        exact ⟨[], s, cp, rfl, h⟩
      | some v =>
        rw [hcase] at h
        simp [Option.orElse] at h
        subst h
        obtain ⟨u, s', cp', hs, hk⟩ := ih a s cp _ v hcase
        by_cases hlt : s'.length < s.length
        · rw [if_pos hlt] at hk
          obtain ⟨u', s'', cp'', hs', hk'⟩ := ih (.star a) s' cp' _ v hk
          exact ⟨u ++ u', s'', cp'', by rw [hs, hs', List.append_assoc], hk'⟩
        · rw [if_neg hlt] at hk
          exact ⟨u, s', cp', hs, hk⟩

/-- A successful `findAt` consumed the prefix it reports. -/
theorem findAt_decomp (re : RE) (s : List Char) (cp : Caps) (rest : List Char)
    (h : findAt re s = some (cp, rest)) :
    s = s.take (s.length - rest.length) ++ rest := by
  obtain ⟨u, s', cp', hs, hk⟩ := mtch_split _ re s [] _ _ h
  obtain ⟨h1, h2⟩ := Prod.mk.injEq .. ▸ Option.some.injEq .. ▸ hk
  subst h2
  rw [hs]
  have : (u ++ s').length - s'.length = u.length := by simp
  rw [this, List.take_left]

/-- `findLeftmost` reports a decomposition of its input. -/
theorem findLeftmost_decomp (re : RE) : ∀ (s pre m rest : List Char) (cp : Caps),
    findLeftmost re s = some (pre, m, cp, rest) → s = pre ++ m ++ rest := by
  intro s
  induction s with
  | nil =>
    intro pre m rest cp h
    simp only [findLeftmost] at h
    cases hfa : findAt re [] with
    | some v =>
      obtain ⟨cp0, rest0⟩ := v
      rw [hfa] at h
      simp only [Option.some.injEq, Prod.mk.injEq] at h
      obtain ⟨h1, h2, _, h4⟩ := h
      subst h1; subst h2; subst h4
      simpa using findAt_decomp re [] cp0 rest0 hfa
    | none => rw [hfa] at h; simp at h
  | cons c cs ih =>
    intro pre m rest cp h
    simp only [findLeftmost] at h
    cases hfa : findAt re (c :: cs) with
    | some v =>
      obtain ⟨cp0, rest0⟩ := v
      rw [hfa] at h
      simp only [Option.some.injEq, Prod.mk.injEq] at h
      obtain ⟨h1, h2, _, h4⟩ := h
      subst h1; subst h2; subst h4
      simpa using findAt_decomp re (c :: cs) cp0 rest0 hfa
    | none =>
      rw [hfa] at h
      cases hfl : findLeftmost re cs with
      | some w =>
        obtain ⟨pre', m', cp', rest'⟩ := w
        rw [hfl] at h
        simp only [Option.some.injEq, Prod.mk.injEq] at h
        obtain ⟨h1, h2, _, h4⟩ := h
        subst h1; subst h2; subst h4
        simpa using ih pre' m' rest' cp' hfl
      | none => rw [hfl] at h; simp at h

/-- A match of a regex that starts with a literal consumes that literal:
the continuation runs strictly inside the tail. -/
theorem mtch_lit_head (fuel : Nat) (c : Char) (re2 : RE) (s : List Char)
    (cp : Caps) (k : List Char → Caps → Option (Caps × List Char))
    (r : Caps × List Char) (h : mtch fuel (.seq (.lit c) re2) s cp k = some r) :
    ∃ x xs, s = x :: xs ∧ ∃ u s' cp', xs = u ++ s' ∧ k s' cp' = some r := by
  cases fuel with
  | zero => simp [mtch] at h
  | succ n =>
    simp only [mtch] at h
    cases n with
    | zero => simp [mtch] at h
    | succ m =>
      cases s with
      | nil => simp [mtch] at h
      | cons x xs =>
        simp only [mtch] at h
        by_cases hx : x = c
        · rw [if_pos hx] at h
          obtain ⟨u, s', cp', hxs, hk⟩ := mtch_split (m + 1) re2 xs cp _ r
            (show mtch (m + 1) re2 xs cp k = some r from h)
          exact ⟨x, xs, rfl, u, s', cp', hxs, hk⟩
        · rw [if_neg hx] at h; simp at h

/-- A placeholder match is non-empty (the pattern begins with a literal
`{`), so the leftover input is strictly shorter. -/
theorem findAt_placeholder_rest_lt (s : List Char) (cp : Caps) (rest : List Char)
    (h : findAt templatePlaceholderRegex s = some (cp, rest)) :
    rest.length < s.length := by
  unfold findAt templatePlaceholderRegex at h
  obtain ⟨x, xs, hs, u, s', cp', hxs, hk⟩ := mtch_lit_head _ '{' _ s [] _ _ h
  simp only [Option.some.injEq, Prod.mk.injEq] at hk
  obtain ⟨_, h2⟩ := hk
  subst h2
  have hlen : xs.length = u.length + s'.length := by rw [hxs]; simp
  subst hs
  simp only [List.length_cons]
  omega

/-- The tail left over after replacing the leftmost placeholder is strictly
shorter than the input. -/
theorem findLeftmost_rest_lt : ∀ (s pre m rest : List Char) (cp : Caps),
    findLeftmost templatePlaceholderRegex s = some (pre, m, cp, rest) →
    rest.length < s.length := by
  intro s
  induction s with
  | nil =>
    intro pre m rest cp h
    simp only [findLeftmost] at h
    cases hfa : findAt templatePlaceholderRegex [] with
    | some v =>
      obtain ⟨cp0, rest0⟩ := v
      have := findAt_placeholder_rest_lt [] cp0 rest0 hfa
      simp at this
    | none => simp_all
  | cons c cs ih =>
    intro pre m rest cp h
    simp only [findLeftmost] at h
    cases hfa : findAt templatePlaceholderRegex (c :: cs) with
    | some v =>
      obtain ⟨cp0, rest0⟩ := v
      rw [hfa] at h
      simp only [Option.some.injEq, Prod.mk.injEq] at h
      obtain ⟨_, _, _, h4⟩ := h
      subst h4
      exact findAt_placeholder_rest_lt (c :: cs) cp0 rest0 hfa
    | none =>
      rw [hfa] at h
      cases hfl : findLeftmost templatePlaceholderRegex cs with
      | some w =>
        obtain ⟨pre', m', cp', rest'⟩ := w
        rw [hfl] at h
        simp only [Option.some.injEq, Prod.mk.injEq] at h
        obtain ⟨_, _, _, h4⟩ := h
        subst h4
        have := ih pre' m' rest' cp' hfl
        simp only [List.length_cons]
        omega
      | none => rw [hfl] at h; simp at h

/-- Any two sufficient fuels give `interpAux` the same result. -/
theorem interpAux_fuel_irrel (ctx : InterpCtx) (orig : List Char) :
    ∀ (n : Nat) (s : List Char), s.length ≤ n → ∀ f g, s.length < f →
    s.length < g → interpAux ctx orig f s = interpAux ctx orig g s := by
  intro n
  induction n with
  | zero =>
    intro s hs f g hf hg
    have hnil : s = [] := List.length_eq_zero.mp (Nat.le_zero.mp hs)
    subst hnil
    cases f with
    | zero => omega
    | succ f =>
      cases g with
      | zero => omega
      | succ g =>
        simp only [interpAux]
        rw [show findLeftmost templatePlaceholderRegex [] = none from by rfl]
  | succ n ih =>
    intro s hs f g hf hg
    cases f with
    | zero => omega
    | succ f =>
      cases g with
      | zero => omega
      | succ g =>
        simp only [interpAux]
        cases hfl : findLeftmost templatePlaceholderRegex s with
        | none => rfl
        | some q =>
          obtain ⟨pre, m, cp, rest⟩ := q
          have hlt := findLeftmost_rest_lt s pre m rest cp hfl
          dsimp only
          rw [ih rest (by omega) f g (by omega) (by omega)]

/-- `interpolatePlaceholders` equals `interpAux` at any sufficient fuel. -/
theorem interpolatePlaceholders_eq_aux (ctx : InterpCtx) (s : List Char)
    (fuel : Nat) (h : s.length < fuel) :
    interpolatePlaceholders ctx s = interpAux ctx s fuel s :=
  interpAux_fuel_irrel ctx s s.length s le_rfl _ fuel (by omega) h

/-- Whenever the elements pattern matched, `randomElements` picks an
in-bounds index and returns a member of the comma-split token list. -/
theorem randomElements_mem (rng : Nat → Nat) (h : ∀ n, 0 < n → rng n < n)
    (src : List Char) (r : Caps)
    (hm : findSubmatch templateElementsRegex src = some r) :
    ∃ t, randomElements rng src = some t ∧ t ∈ goSplit ',' (capGet r 1) := by
  have hlen : 0 < (goSplit ',' (capGet r 1)).length := goSplit_length_pos _ _
  have hr : rng (goSplit ',' (capGet r 1)).length < (goSplit ',' (capGet r 1)).length :=
    h _ hlen
  simp only [randomElements, hm, goIntn]
  rw [if_neg (by exact_mod_cast Nat.not_le.mpr hlen)]
  simp only [Int.toNat_natCast]
  exact ⟨_, List.get?_eq_get hr, List.get?_mem (List.get?_eq_get hr)⟩

/-- `wrap64` is the identity on the `int64` range. -/
theorem wrap64_eq_self (x : Int) (hlo : -9223372036854775808 ≤ x)
    (hhi : x ≤ 9223372036854775807) : wrap64 x = x := by
  have h63 : (2 : Int) ^ 63 = 9223372036854775808 := by norm_num
  have h64 : (2 : Int) ^ 64 = 18446744073709551616 := by norm_num
  unfold wrap64
  rw [h63, h64]
  omega

/-- Whenever the range pattern matched with `min ≤ max` and the width
`max - min + 1` stays inside `int64` (no wraparound), `rangeElements`
returns the decimal digits of an integer inside `[min, max]` and logs
nothing. -/
theorem rangeElements_in_range (rng : Nat → Nat) (h : ∀ n, 0 < n → rng n < n)
    (src : List Char) (r : Caps)
    (hm : findSubmatch templateRangeRegex src = some r)
    (hle : goAtoi (capGet r 1) ≤ goAtoi (capGet r 2))
    (hnw : goAtoi (capGet r 2) - goAtoi (capGet r 1) + 1 ≤ 9223372036854775807) :
    ∃ v : Int, rangeElements rng src = (some (Int.repr v).toList, []) ∧
      goAtoi (capGet r 1) ≤ v ∧ v ≤ goAtoi (capGet r 2) := by
  simp only [rangeElements, hm, goIntn]
  rw [wrap64_eq_self (goAtoi (capGet r 2) - goAtoi (capGet r 1) + 1)
    (by omega) (by omega)]
  rw [if_neg (by omega)]
  rw [if_neg (by omega)]
  refine ⟨(rng (goAtoi (capGet r 2) - goAtoi (capGet r 1) + 1).toNat : Int)
      + goAtoi (capGet r 1), rfl, by omega, ?_⟩
  have hp : 0 < (goAtoi (capGet r 2) - goAtoi (capGet r 1) + 1).toNat := by omega
  have := h _ hp
  omega

/-- A string with no placeholder match interpolates to itself. -/
theorem interp_no_match (ctx : InterpCtx) (s : List Char)
    (h : findLeftmost templatePlaceholderRegex s = none) :
    interpolatePlaceholders ctx s = (some s, []) := by
  show interpAux ctx s (s.length + 1) s = (some s, [])
  simp only [interpAux, h]

/-- `breakAt` splits at the first separator occurrence. -/
theorem breakAt_append (sep : Char) (u v : List Char) (h : sep ∉ u) :
    breakAt sep (u ++ sep :: v) = some (u, v) := by
  induction u with
  | nil => simp [breakAt]
  | cons c cs ih =>
    have hc : c ≠ sep := fun he => h (he ▸ List.mem_cons_self c cs)
    have hcs : sep ∉ cs := fun hm => h (List.mem_cons_of_mem c hm)
    simp only [List.cons_append, breakAt, if_neg hc]
    rw [show cs.append (sep :: v) = cs ++ sep :: v from rfl, ih hcs]

/-- One step of `SplitN` when a separator is present and the budget allows
another part. -/
theorem goSplitN_cons (sep : Char) (n : Nat) (s pre post : List Char)
    (h : breakAt sep s = some (pre, post)) :
    goSplitN sep (n + 2) s = pre :: goSplitN sep (n + 1) post := by
  simp only [goSplitN, h]

/-- The upper-casing of a colon-bearing string bears a colon. -/
theorem colon_mem_goToUpper (m : List Char) (h : ':' ∈ m) :
    ':' ∈ goToUpper m := by
  have : (fun c =>
      if 'a' ≤ c && c ≤ 'z' then Char.ofNat (c.toNat - 32)
      else if c = 'ſ' then 'S'
      else if c = 'ı' then 'I'
      else c) ':' = ':' := by decide
  exact this ▸ List.mem_map_of_mem _ h

/-- A string whose upper-casing is an allowed method contains no colon. -/
theorem colon_not_mem_of_allowed (m : List Char)
    (h : allowedHTTPMethods.contains (String.mk (goToUpper m)) = true) :
    ':' ∉ m := by
  intro hc
  have hu := colon_mem_goToUpper m hc
  have hmem : String.mk (goToUpper m) ∈ allowedHTTPMethods := by
    simpa [List.contains] using h
  have hall : ∀ M ∈ allowedHTTPMethods, ':' ∉ M.toList := by decide
  exact hall _ hmem (show ':' ∈ (String.mk (goToUpper m)).toList from hu)

set_option maxHeartbeats 4000000 in
/-- Year-of-era recovery of `goCivilFromDays` is in range and consistent:
for a day-of-era in `[0, 146097)` the recovered `yoe` is in `[0, 399]` and
its year start `G yoe = 365 yoe + yoe/4 - yoe/100` brackets the input
within 365 days.  Proved by splitting the era into its 101 four-year blocks
(`doe / 1460`) and, within each, on the century quotient, where linear
integer arithmetic closes each window. -/
theorem civil_yoe_bounds (doe : Int) (hlo : 0 ≤ doe) (hhi : doe < 146097) :
    0 ≤ (doe - doe / 1460 + doe / 36524 - doe / 146096) / 365 ∧
    (doe - doe / 1460 + doe / 36524 - doe / 146096) / 365 ≤ 399 ∧
    365 * ((doe - doe / 1460 + doe / 36524 - doe / 146096) / 365)
      + ((doe - doe / 1460 + doe / 36524 - doe / 146096) / 365) / 4
      - ((doe - doe / 1460 + doe / 36524 - doe / 146096) / 365) / 100 ≤ doe ∧
    doe ≤ 365 * ((doe - doe / 1460 + doe / 36524 - doe / 146096) / 365)
      + ((doe - doe / 1460 + doe / 36524 - doe / 146096) / 365) / 4
      - ((doe - doe / 1460 + doe / 36524 - doe / 146096) / 365) / 100 + 365 := by
  set N := doe - doe / 1460 + doe / 36524 - doe / 146096 with hN
  have hch := Int.ediv_add_emod N 365
  set yoe := N / 365 with hyoe
  clear_value yoe
  have hb1 : 0 ≤ doe / 1460 := by omega
  have hb2 : doe / 1460 ≤ 100 := by omega
  set k := doe / 1460 with hk
  clear_value k
  interval_cases k <;>
    (have hq3 : doe / 146096 = 0 ∨ doe / 146096 = 1 := by omega
     have hq2 : doe / 36524 = 0 ∨ doe / 36524 = 1 ∨ doe / 36524 = 2 ∨
        doe / 36524 = 3 ∨ doe / 36524 = 4 := by omega
     rcases hq3 with hq3 | hq3 <;> rcases hq2 with hq2 | hq2 | hq2 | hq2 | hq2 <;> omega)

/-- Applying the forward day-count map to the components produced by the
inverse civil conversion recovers the day number — stated over the raw
intermediate quantities of `goCivilFromDays`. -/
theorem civil_roundtrip_core (z era doe yoe doy mp d m y : Int)
    (hera : era = (z + 719468) / 146097)
    (hdoe : doe = z + 719468 - era * 146097)
    (hyoe : yoe = (doe - doe / 1460 + doe / 36524 - doe / 146096) / 365)
    (hdoy : doy = doe - (365 * yoe + yoe / 4 - yoe / 100))
    (hmp : mp = (5 * doy + 2) / 153)
    (hd : d = doy - (153 * mp + 2) / 5 + 1)
    (hm : m = mp + (if mp < 10 then 3 else -9))
    (hy : y = (if m ≤ 2 then yoe + era * 400 + 1 else yoe + era * 400)) :
    goDaysFromCivil y m d = z := by
  have h0 : 0 ≤ doe := by omega
  have h1 : doe < 146097 := by omega
  obtain ⟨hyoe0, hyoe399, hgle, hleg⟩ := civil_yoe_bounds doe h0 h1
  rw [← hyoe] at hyoe0 hyoe399 hgle hleg
  have hdoy0 : 0 ≤ doy := by omega
  have hdoy365 : doy ≤ 365 := by omega
  have hmp0 : 0 ≤ mp := by omega
  have hmp11 : mp ≤ 11 := by omega
  have hyd : (yoe + era * 400) / 400 = era := by omega
  unfold goDaysFromCivil
  dsimp only
  by_cases hmp10 : mp < 10
  · rw [if_pos hmp10] at hm
    have hm3 : m = mp + 3 := by omega
    rw [if_neg (by omega : ¬ m ≤ 2)] at hy
    rw [hy, if_neg (by omega : ¬ m ≤ 2), if_pos (by omega : 2 < m), hm3]
    rw [show mp + 3 + -3 = mp from by ring, hyd,
      show yoe + era * 400 - era * 400 = yoe from by ring]
    omega
  · rw [if_neg hmp10] at hm
    have hm9 : m = mp - 9 := by omega
    rw [if_pos (by omega : m ≤ 2)] at hy
    rw [hy, if_pos (by omega : m ≤ 2), if_neg (by omega : ¬ 2 < m), hm9]
    rw [show yoe + era * 400 + 1 - 1 = yoe + era * 400 from by ring, hyd,
      show yoe + era * 400 - era * 400 = yoe from by ring,
      show mp - 9 + 9 = mp from by ring]
    omega

/-- The civil conversions are a section/retraction pair: the day number of
the civil date of any day number `z` is `z` again. -/
theorem goDays_goCivil_id (z : Int) :
    goDaysFromCivil (goCivilFromDays z).year (goCivilFromDays z).month
      (goCivilFromDays z).day = z := by
  exact civil_roundtrip_core z _ _ _ _ _ _ _ _ rfl rfl rfl rfl rfl rfl rfl rfl

/-- The forward day count is linear in the day component. -/
theorem goDaysFromCivil_day_add (y m d : Int) :
    goDaysFromCivil y m d = goDaysFromCivil y m 1 + (d - 1) := by
  unfold goDaysFromCivil
  dsimp only
  ring

/-- `AddDate(0, 0, 1)` moves a valid date exactly one step forward on the
day-number line. -/
theorem addDate_one_day (t : GoDate) (hv : ValidDate t) :
    goDaysFromCivil (goAddDate t 0 0 1).year (goAddDate t 0 0 1).month
        (goAddDate t 0 0 1).day
      = goDaysFromCivil t.year t.month t.day + 1 := by
  obtain ⟨hm1, hm2, hd1, hd2⟩ := hv
  unfold goAddDate
  dsimp only
  have e1 : (t.month + 0 - 1) / 12 = 0 := by omega
  have e2 : (t.month + 0 - 1) % 12 + 1 = t.month := by omega
  rw [e1, e2, show t.year + 0 + 0 = t.year from by ring]
  rw [goDays_goCivil_id]
  rw [goDaysFromCivil_day_add t.year t.month t.day]

/-!
Claim theorems.
-/

/-- Fixed call-time context used by the concrete evaluations: call time
2026-10-11, and a random source that always returns 0 (which satisfies the
`rng n < n` contract of `rand.Intn`). -/
def ctxA : InterpCtx := ⟨⟨2026, 10, 11⟩, 1760100000000000000, fun _ => 0⟩

/-- Claim C1 (code bug): the claim says a failed invocation after a
successful connect must surface the invocation error in the `Response`, but
`SendRequest` (client.go line 111) returns `Err: nil` on the failing
`InvokeRPC` branch: with a successful connect and an invocation that fails,
the invocation runs yet the returned `Response` carries no error. -/
theorem claim_C1_invocation_error_discarded :
    (SendRequest NewClient ⟨.ok (), .ok (), some "rpc failed: unavailable", 7⟩).invoked
        = true ∧
    (SendRequest NewClient ⟨.ok (), .ok (), some "rpc failed: unavailable", 7⟩).resp.Err
        = none ∧
    (SendRequest NewClient ⟨.ok (), .ok (), some "rpc failed: unavailable", 7⟩).resp.Typ
        = "grpc" := by
  exact ⟨rfl, rfl, rfl⟩

/-- Claim C2 (code bug): the claim says that after a failed first connect
every later `SendRequest` fails immediately with the remembered connection
error and performs no RPC.  In the source `connErr` is a local of
`SendRequest` and the `sync.Once` body never reruns, so the second call sees
`connErr = nil` and proceeds: it performs no new dial (that much holds) but
runs the RPC invocation and returns a `Response` with no error instead of
the remembered connection failure. -/
theorem claim_C2_connect_error_not_sticky :
    (SendRequest NewClient
        ⟨.error "gRPC dial: connection refused", .ok (), none, 0⟩).resp
      = ⟨0, some "gRPC dial: connection refused", "grpc"⟩ ∧
    (SendRequest (SendRequest NewClient
        ⟨.error "gRPC dial: connection refused", .ok (), none, 0⟩).state'
        ⟨.error "gRPC dial: connection refused", .ok (), some "broken pipe", 3⟩).dialed
      = false ∧
    (SendRequest (SendRequest NewClient
        ⟨.error "gRPC dial: connection refused", .ok (), none, 0⟩).state'
        ⟨.error "gRPC dial: connection refused", .ok (), some "broken pipe", 3⟩).invoked
      = true ∧
    (SendRequest (SendRequest NewClient
        ⟨.error "gRPC dial: connection refused", .ok (), none, 0⟩).state'
        ⟨.error "gRPC dial: connection refused", .ok (), some "broken pipe", 3⟩).resp.Err
      = none := by
  exact ⟨rfl, rfl, rfl, rfl⟩

/-- Claim C3, counterexample: at call time 2026-10-11 the placeholder
`{$currentDate|days=1}` does not resolve to the next day's date
`2026-10-12` — the dates pattern requires sign syntax (`days+1`), `days=1`
matches nothing, and the placeholder is left unresolved. -/
theorem claim_C3_counterexample_days_eq_syntax_unresolved :
    interpolateS ctxA "\x7b$currentDate|days=1\x7d"
        = (some "\x7b$currentDate|days=1\x7d", []) ∧
    String.mk (goFormatDate (nextDayCivil ⟨2026, 10, 11⟩)) = "2026-10-12" ∧
    ("\x7b$currentDate|days=1\x7d" : String) ≠ "2026-10-12" := by
  exact ⟨rfl, rfl, by decide⟩

/-- Claim C6 (code bug): the claim says a matched range with `min ≤ max`
always resolves to an integer in `[min, max]` and the resolver never
crashes, but the width `max - min + 1` is computed in Go `int64`: at
`min = 0`, `max = 9223372036854775807` it wraps to `-2^63`, `rand.Intn`
panics, and the pass crashes (first conjunct: the panic outcome at that
input).  The claimed behaviour does hold whenever the width stays inside
`int64`: the digits of an in-range value for `min ≤ max` with no warning;
`{$range|min=5,max=5}` always interpolating to `5`; and
`{$range|min=10,max=1}` left unresolved with the `min > max` warning
logged. -/
theorem claim_C6_range_resolver :
    interpolateS ctxA "\x7b$range|min=0,max=9223372036854775807\x7d"
        = (none, []) ∧
    (∀ (rng : Nat → Nat), (∀ n, 0 < n → rng n < n) →
      ∀ (src : List Char) (r : Caps),
        findSubmatch templateRangeRegex src = some r →
        goAtoi (capGet r 1) ≤ goAtoi (capGet r 2) →
        goAtoi (capGet r 2) - goAtoi (capGet r 1) + 1 ≤ 9223372036854775807 →
        ∃ v : Int, rangeElements rng src = (some (Int.repr v).toList, []) ∧
          goAtoi (capGet r 1) ≤ v ∧ v ≤ goAtoi (capGet r 2)) ∧
    (∀ (now : GoDate) (nanos : Int) (rng : Nat → Nat), (∀ n, 0 < n → rng n < n) →
      interpolateS ⟨now, nanos, rng⟩ "\x7b$range|min=5,max=5\x7d"
        = (some "5", [])) ∧
    (∀ (now : GoDate) (nanos : Int) (rng : Nat → Nat),
      interpolateS ⟨now, nanos, rng⟩ "\x7b$range|min=10,max=1\x7d"
        = (some "\x7b$range|min=10,max=1\x7d", ["Invalid range. min > max"])) := by
  refine ⟨by rfl, rangeElements_in_range, ?_, fun now nanos rng => rfl⟩
  intro now nanos rng h
  have h10 : rng 1 = 0 := by have := h 1 (by norm_num); omega
  have hval : rangeElements rng "\x7b$range|min=5,max=5\x7d".toList
      = (some "5".toList, []) := by
    rw [show rangeElements rng "\x7b$range|min=5,max=5\x7d".toList
        = (some (Int.repr (((rng 1 : Nat) : Int) + 5)).toList, []) by rfl, h10]
    rfl
  simp only [interpolateS, interpolatePlaceholders]
  rw [show ("\x7b$range|min=5,max=5\x7d".toList.length + 1) = 20 + 1 by rfl]
  rw [interpAux_found ⟨now, nanos, rng⟩ "\x7b$range|min=5,max=5\x7d".toList 20
      "\x7b$range|min=5,max=5\x7d".toList [] "\x7b$range|min=5,max=5\x7d".toList []
      [(1, "range|min=5,max=5".toList)] (by rfl)]
  rw [show replaceCallback ⟨now, nanos, rng⟩ "\x7b$range|min=5,max=5\x7d".toList
        "\x7b$range|min=5,max=5\x7d".toList
      = rangeElements rng "\x7b$range|min=5,max=5\x7d".toList by rfl]
  rw [hval]
  rfl

/-- Claim C6, witness: with the always-zero (contract-satisfying) random
source, `{$range|min=5,max=5}` interpolates to `5`. -/
theorem claim_C6_witness :
    interpolateS ⟨⟨2026, 10, 11⟩, 0, fun _ => 0⟩ "\x7b$range|min=5,max=5\x7d"
      = (some "5", []) :=
  claim_C6_range_resolver.2.2.1 ⟨2026, 10, 11⟩ 0 (fun _ => 0) (fun _ hn => hn)

/-- Claim C7 (confirmed): whenever the elements pattern matches, the random
resolver returns exactly one member of the comma-split token list (the
selection index is in bounds, so no panic), and `{$random|a,b,c}` always
interpolates to `a`, `b` or `c`. -/
theorem claim_C7_random_resolver :
    (∀ (rng : Nat → Nat), (∀ n, 0 < n → rng n < n) →
      ∀ (src : List Char) (r : Caps),
        findSubmatch templateElementsRegex src = some r →
        ∃ t, randomElements rng src = some t ∧ t ∈ goSplit ',' (capGet r 1)) ∧
    (∀ (now : GoDate) (nanos : Int) (rng : Nat → Nat), (∀ n, 0 < n → rng n < n) →
      interpolateS ⟨now, nanos, rng⟩ "\x7b$random|a,b,c\x7d" ∈
        [((some "a" : Option String), ([] : List String)), (some "b", []), (some "c", [])]) := by
  refine ⟨randomElements_mem, ?_⟩
  intro now nanos rng h
  obtain ⟨t, ht, hmem⟩ := randomElements_mem rng h "\x7b$random|a,b,c\x7d".toList
      [(1, "a,b,c".toList)] (by rfl)
  rw [show goSplit ',' (capGet [(1, "a,b,c".toList)] 1)
      = ["a".toList, "b".toList, "c".toList] by rfl] at hmem
  have hpipe : interpolateS ⟨now, nanos, rng⟩ "\x7b$random|a,b,c\x7d"
      = (some (String.mk (t ++ [])), ([] : List String)) := by
    simp only [interpolateS, interpolatePlaceholders]
    rw [show ("\x7b$random|a,b,c\x7d".toList.length + 1) = 15 + 1 by rfl]
    rw [interpAux_found ⟨now, nanos, rng⟩ "\x7b$random|a,b,c\x7d".toList 15
        "\x7b$random|a,b,c\x7d".toList [] "\x7b$random|a,b,c\x7d".toList []
        [(1, "random|a,b,c".toList)] (by rfl)]
    rw [show replaceCallback ⟨now, nanos, rng⟩ "\x7b$random|a,b,c\x7d".toList
          "\x7b$random|a,b,c\x7d".toList
        = (randomElements rng "\x7b$random|a,b,c\x7d".toList, []) by rfl]
    rw [ht]
    rfl
  rw [hpipe]
  fin_cases hmem <;> simp_all

/-- Claim C5, counterexample: the final "the output differs from s" clause
fails.  In `{$bogus}{$random|a,}` the first matched span `{$bogus}` (which
contains none of the four keywords) sits at position 0 with text after it,
yet when the random pick on the tail's `{$random|a,}` selects the empty
token (index 1), the whole pass returns the input unchanged: the span was
replaced by a copy of the entire source, and the tail shrank to nothing. -/
theorem claim_C5_counterexample_output_can_equal_input :
    interpolateS ⟨⟨2026, 10, 11⟩, 0, fun _ => 1⟩ "\x7b$bogus\x7d\x7b$random|a,\x7d"
        = (some "\x7b$bogus\x7d\x7b$random|a,\x7d", []) ∧
    findLeftmost templatePlaceholderRegex "\x7b$bogus\x7d\x7b$random|a,\x7d".toList
        = some ([], "\x7b$bogus\x7d".toList, [(1, "bogus".toList)],
            "\x7b$random|a,\x7d".toList) ∧
    (containsL "\x7b$bogus\x7d".toList "currentDate".toList = false ∧
      containsL "\x7b$bogus\x7d".toList "currentTimestamp".toList = false ∧
      containsL "\x7b$bogus\x7d".toList "random".toList = false ∧
      containsL "\x7b$bogus\x7d".toList "range".toList = false) ∧
    "\x7b$random|a,\x7d".toList ≠ [] := by
  exact ⟨rfl, rfl, ⟨rfl, rfl, rfl, rfl⟩, by decide⟩

/-- Claim C5, amended: when the leftmost placeholder match contains none of
the four resolver keywords, the interpolator substitutes the ENTIRE source
string for that span: whatever outcome processing the tail produces, the
pass returns the prefix, then a full copy of `s`, then the processed tail
(and a panic in the tail propagates).  Consequently, if the tail holds no
further placeholder match, the pass completes with `pre ++ s ++ rest`,
strictly longer than `s` — and hence different — whenever any text
surrounds the span.  (Without that proviso later replacements can shrink
the tail and the output can coincide with the input, as the counterexample
shows.) -/
theorem claim_C5_unknown_span_substitutes_whole_source :
    ∀ (ctx : InterpCtx) (s pre m rest : List Char) (cp : Caps),
    findLeftmost templatePlaceholderRegex s = some (pre, m, cp, rest) →
    containsL m "currentDate".toList = false →
    containsL m "currentTimestamp".toList = false →
    containsL m "random".toList = false →
    containsL m "range".toList = false →
    s = pre ++ m ++ rest ∧
    (∀ tail lg, interpAux ctx s (rest.length + 1) rest = (some tail, lg) →
      interpolatePlaceholders ctx s = (some (pre ++ s ++ tail), lg)) ∧
    (∀ lg, interpAux ctx s (rest.length + 1) rest = (none, lg) →
      interpolatePlaceholders ctx s = (none, lg)) ∧
    (findLeftmost templatePlaceholderRegex rest = none →
      interpolatePlaceholders ctx s = (some (pre ++ s ++ rest), []) ∧
      (pre ≠ [] ∨ rest ≠ [] → s.length < (pre ++ s ++ rest).length)) := by
  intro ctx s pre m rest cp hfl hc1 hc2 hc3 hc4
  have hdec := findLeftmost_decomp templatePlaceholderRegex s pre m rest cp hfl
  have hlt := findLeftmost_rest_lt s pre m rest cp hfl
  have hrc : replaceCallback ctx s m = (some s, []) := by
    simp only [replaceCallback, hc1, hc2, hc3, hc4]
    rfl
  have hmain : ∀ (o : Option (List Char)) (lg : List String),
      interpAux ctx s (rest.length + 1) rest = (o, lg) →
      interpolatePlaceholders ctx s
        = (o.map (fun tail => pre ++ s ++ tail), lg) := by
    intro o lg hq
    show interpAux ctx s (s.length + 1) s = _
    rw [interpAux_found ctx s s.length s pre m rest cp hfl, hrc]
    dsimp only
    rw [interpAux_fuel_irrel ctx s rest.length rest le_rfl s.length
      (rest.length + 1) hlt (by omega), hq]
    cases o <;> simp
  refine ⟨hdec, fun tail lg hq => by simpa using hmain (some tail) lg hq,
    fun lg hq => by simpa using hmain none lg hq, ?_⟩
  intro hnone
  have hq : interpAux ctx s (rest.length + 1) rest = (some rest, []) := by
    simp only [interpAux, hnone]
  refine ⟨by simpa using hmain (some rest) [] hq, ?_⟩
  intro hside
  have hp : pre.length ≠ 0 ∨ rest.length ≠ 0 := by
    rcases hside with hside | hside
    · exact Or.inl (fun he => hside (List.length_eq_zero.mp he))
    · exact Or.inr (fun he => hside (List.length_eq_zero.mp he))
  simp only [List.length_append]
  omega

/-- Claim C5, witness: on `x{$bogus}y` (span `{$bogus}` with text on both
sides, no further match in the tail) the pass yields `xx{$bogus}yy`,
strictly longer than the input. -/
theorem claim_C5_witness :
    "x\x7b$bogus\x7dy".toList
        = ['x'] ++ "\x7b$bogus\x7d".toList ++ "y".toList ∧
    (∀ tail lg,
      interpAux ⟨⟨2026, 10, 11⟩, 0, fun _ => 0⟩ "x\x7b$bogus\x7dy".toList
          (("y".toList).length + 1) "y".toList = (some tail, lg) →
      interpolatePlaceholders ⟨⟨2026, 10, 11⟩, 0, fun _ => 0⟩ "x\x7b$bogus\x7dy".toList
          = (some (['x'] ++ "x\x7b$bogus\x7dy".toList ++ tail), lg)) ∧
    (∀ lg,
      interpAux ⟨⟨2026, 10, 11⟩, 0, fun _ => 0⟩ "x\x7b$bogus\x7dy".toList
          (("y".toList).length + 1) "y".toList = (none, lg) →
      interpolatePlaceholders ⟨⟨2026, 10, 11⟩, 0, fun _ => 0⟩ "x\x7b$bogus\x7dy".toList
          = (none, lg)) ∧
    (findLeftmost templatePlaceholderRegex "y".toList = none →
      interpolatePlaceholders ⟨⟨2026, 10, 11⟩, 0, fun _ => 0⟩ "x\x7b$bogus\x7dy".toList
          = (some (['x'] ++ "x\x7b$bogus\x7dy".toList ++ "y".toList), []) ∧
      (['x'] ≠ [] ∨ "y".toList ≠ [] →
        "x\x7b$bogus\x7dy".toList.length
          < (['x'] ++ "x\x7b$bogus\x7dy".toList ++ "y".toList).length)) :=
  claim_C5_unknown_span_substitutes_whole_source
    ⟨⟨2026, 10, 11⟩, 0, fun _ => 0⟩
    "x\x7b$bogus\x7dy".toList ['x'] "\x7b$bogus\x7d".toList "y".toList
    [(1, "bogus".toList)] (by rfl) (by rfl) (by rfl) (by rfl) (by rfl)

/-- Claim C7, witness: with the always-zero (contract-satisfying) random
source, `{$random|a,b,c}` interpolates to one of `a`, `b`, `c`. -/
theorem claim_C7_witness :
    interpolateS ⟨⟨2026, 10, 11⟩, 0, fun _ => 0⟩ "\x7b$random|a,b,c\x7d" ∈
      [((some "a" : Option String), ([] : List String)), (some "b", []), (some "c", [])] :=
  claim_C7_random_resolver.2 ⟨2026, 10, 11⟩ 0 (fun _ => 0) (fun _ hn => hn)

/-- Claim C4 (code bug): the claim (and the spec's fail-open policy) says an
unknown placeholder is left in the output byte-for-byte with the
surrounding text preserved.  The callback's else branch (line 160) returns
`source` — the whole input — instead of the matched span, so
`a{$bogus}b` interpolates to `aa{$bogus}bb`, duplicating the surrounding
text. -/
theorem claim_C4_unknown_placeholder_duplicates_input :
    interpolateS ctxA "a\x7b$bogus\x7db" = (some "aa\x7b$bogus\x7dbb", []) ∧
    ("aa\x7b$bogus\x7dbb" : String) ≠ "a\x7b$bogus\x7db" := by
  exact ⟨rfl, by decide⟩

/-- Claim C8, counterexample: the claim's universal "the remainder is
preserved as the Request's Body" can fail outright — for the descriptor
`GET:/a:x:{$range|min=0,max=9223372036854775807}` (remainder with a colon)
no `Request` is produced at all: the overflowing range placeholder in the
body panics the interpolation pass. -/
theorem claim_C8_counterexample_body_can_panic :
    ToHTTPRequest ctxA "GET:/a:x:\x7b$range|min=0,max=9223372036854775807\x7d"
        = .panicked ∧
    ∀ req lg,
      ToHTTPRequest ctxA "GET:/a:x:\x7b$range|min=0,max=9223372036854775807\x7d"
        ≠ .ok req lg := by
  refine ⟨by rfl, fun req lg h => ?_⟩
  rw [show ToHTTPRequest ctxA
      "GET:/a:x:\x7b$range|min=0,max=9223372036854775807\x7d"
    = ParseResult.panicked from by rfl] at h
  exact ParseResult.noConfusion h

/-- Claim C8, amended: `SplitN(s, ":", 3)` cuts a descriptor `M : P : B`
(with colon-free `M`, `P`) at the first two colons only, so the entire
remainder — colons included — flows into `Body` as one piece, PROVIDED the
interpolation pass (which the parser always applies) completes on path and
body: then the request stores the interpolated remainder, byte-for-byte
when the body holds no placeholder match; if either interpolation panics
(the range resolver's int64 overflow), the parse panics and no `Request`
exists. -/
theorem claim_C8_body_keeps_remainder_colons :
    ∀ (ctx : InterpCtx) (m p b : List Char), ':' ∉ m → ':' ∉ p →
    allowedHTTPMethods.contains (String.mk (goToUpper m)) = true →
    goSplitN ':' 3 (m ++ ':' :: (p ++ ':' :: b)) = [m, p, b] ∧
    (∀ pv lgp bv lgb,
      interpolatePlaceholders ctx p = (some pv, lgp) →
      interpolatePlaceholders ctx b = (some bv, lgb) →
      ToHTTPRequest ctx (String.mk (m ++ ':' :: (p ++ ':' :: b))) =
        .ok ⟨String.mk (goToUpper m), String.mk pv, some (String.mk bv)⟩
          (lgp ++ lgb) ∧
      (findLeftmost templatePlaceholderRegex b = none → bv = b)) ∧
    ((interpolatePlaceholders ctx p).1 = none →
      ToHTTPRequest ctx (String.mk (m ++ ':' :: (p ++ ':' :: b))) = .panicked) ∧
    (∀ pv lgp,
      interpolatePlaceholders ctx p = (some pv, lgp) →
      (interpolatePlaceholders ctx b).1 = none →
      ToHTTPRequest ctx (String.mk (m ++ ':' :: (p ++ ':' :: b))) = .panicked) := by
  intro ctx m p b hm hp hmok
  have hsplit : goSplitN ':' 3 (m ++ ':' :: (p ++ ':' :: b)) = [m, p, b] := by
    rw [show (3 : Nat) = 1 + 2 by norm_num,
      goSplitN_cons ':' 1 _ m (p ++ ':' :: b) (breakAt_append ':' m _ hm),
      show (1 + 1 : Nat) = 0 + 2 by norm_num,
      goSplitN_cons ':' 0 _ p b (breakAt_append ':' p b hp)]
    rfl
  refine ⟨hsplit, ?_, ?_, ?_⟩
  · intro pv lgp bv lgb hip hib
    refine ⟨?_, ?_⟩
    · simp only [ToHTTPRequest,
        show (String.mk (m ++ ':' :: (p ++ ':' :: b))).toList
          = m ++ ':' :: (p ++ ':' :: b) from rfl, hsplit]
      simp only [List.length_cons, List.length_nil, List.headD, List.getD]
      rw [if_neg (by norm_num)]
      simp only [hmok]
      rw [if_neg (by norm_num)]
      rw [if_neg (by norm_num)]
      simp [hip, hib]
    · intro hnone
      have := interp_no_match ctx b hnone
      rw [hib] at this
      obtain ⟨h1, _⟩ := Prod.mk.injEq .. ▸ this
      exact Option.some.injEq .. ▸ h1
  · intro hpn
    cases hip : interpolatePlaceholders ctx p with
    | mk op lgp =>
      rw [hip] at hpn
      cases op with
      | some pv => simp at hpn
      | none =>
        simp only [ToHTTPRequest,
          show (String.mk (m ++ ':' :: (p ++ ':' :: b))).toList
            = m ++ ':' :: (p ++ ':' :: b) from rfl, hsplit]
        simp only [List.length_cons, List.length_nil, List.headD, List.getD]
        rw [if_neg (by norm_num)]
        simp only [hmok]
        rw [if_neg (by norm_num)]
        rw [if_neg (by norm_num)]
        simp [hip]
  · intro pv lgp hip hbn
    cases hib : interpolatePlaceholders ctx b with
    | mk ob lgb =>
      rw [hib] at hbn
      cases ob with
      | some bv => simp at hbn
      | none =>
        simp only [ToHTTPRequest,
          show (String.mk (m ++ ':' :: (p ++ ':' :: b))).toList
            = m ++ ':' :: (p ++ ':' :: b) from rfl, hsplit]
        simp only [List.length_cons, List.length_nil, List.headD, List.getD]
        rw [if_neg (by norm_num)]
        simp only [hmok]
        rw [if_neg (by norm_num)]
        rw [if_neg (by norm_num)]
        simp [hip, hib]

/-- Claim C8, witness: for `GET:/a:x:y:z` the split yields
`Body` text `x:y:z` — the colons after the second one survive inside the
body — and the stated implications hold at that instance. -/
theorem claim_C8_witness :
    goSplitN ':' 3 ("GET".toList ++ ':' :: ("/a".toList ++ ':' :: "x:y:z".toList))
        = ["GET".toList, "/a".toList, "x:y:z".toList] ∧
    (∀ pv lgp bv lgb,
      interpolatePlaceholders ⟨⟨2026, 10, 11⟩, 0, fun _ => 0⟩ "/a".toList
          = (some pv, lgp) →
      interpolatePlaceholders ⟨⟨2026, 10, 11⟩, 0, fun _ => 0⟩ "x:y:z".toList
          = (some bv, lgb) →
      ToHTTPRequest ⟨⟨2026, 10, 11⟩, 0, fun _ => 0⟩
          (String.mk ("GET".toList ++ ':' :: ("/a".toList ++ ':' :: "x:y:z".toList))) =
        .ok ⟨String.mk (goToUpper "GET".toList), String.mk pv, some (String.mk bv)⟩
          (lgp ++ lgb) ∧
      (findLeftmost templatePlaceholderRegex "x:y:z".toList = none →
        bv = "x:y:z".toList)) ∧
    ((interpolatePlaceholders ⟨⟨2026, 10, 11⟩, 0, fun _ => 0⟩ "/a".toList).1 = none →
      ToHTTPRequest ⟨⟨2026, 10, 11⟩, 0, fun _ => 0⟩
          (String.mk ("GET".toList ++ ':' :: ("/a".toList ++ ':' :: "x:y:z".toList)))
        = .panicked) ∧
    (∀ pv lgp,
      interpolatePlaceholders ⟨⟨2026, 10, 11⟩, 0, fun _ => 0⟩ "/a".toList
          = (some pv, lgp) →
      (interpolatePlaceholders ⟨⟨2026, 10, 11⟩, 0, fun _ => 0⟩ "x:y:z".toList).1
          = none →
      ToHTTPRequest ⟨⟨2026, 10, 11⟩, 0, fun _ => 0⟩
          (String.mk ("GET".toList ++ ':' :: ("/a".toList ++ ':' :: "x:y:z".toList)))
        = .panicked) :=
  claim_C8_body_keeps_remainder_colons ⟨⟨2026, 10, 11⟩, 0, fun _ => 0⟩
    "GET".toList "/a".toList "x:y:z".toList
    (by decide) (by decide) (by rfl)

/-- Claim C9, counterexample: the claim's universal "parsing succeeds" is
false of the code — `gEt:/x{$range|min=0,max=9223372036854775807}` has an
allowed method in mixed case, yet the overflowing range placeholder in the
path panics the interpolation pass and no `Request` is produced. -/
theorem claim_C9_counterexample_path_can_panic :
    ToHTTPRequest ctxA "gEt:/x\x7b$range|min=0,max=9223372036854775807\x7d"
        = .panicked ∧
    ∀ req lg,
      ToHTTPRequest ctxA "gEt:/x\x7b$range|min=0,max=9223372036854775807\x7d"
        ≠ .ok req lg := by
  refine ⟨by rfl, fun req lg h => ?_⟩
  rw [show ToHTTPRequest ctxA "gEt:/x\x7b$range|min=0,max=9223372036854775807\x7d"
    = ParseResult.panicked from by rfl] at h
  exact ParseResult.noConfusion h

/-- Claim C9, amended: a descriptor `M:P` whose method token upper-cases to
a member of the allowed verb set is never rejected as invalid; whenever the
parse returns a `Request` its `Method` is exactly the upper-cased verb; and
the parse either panics (the interpolation pass's int64-overflow range
placeholder) or succeeds with that method — whatever the path is (even one
with further colons). -/
theorem claim_C9_method_uppercased :
    ∀ (ctx : InterpCtx) (m p : List Char),
    allowedHTTPMethods.contains (String.mk (goToUpper m)) = true →
    (∀ msg, ToHTTPRequest ctx (String.mk (m ++ ':' :: p)) ≠ .invalid msg) ∧
    (∀ req lg, ToHTTPRequest ctx (String.mk (m ++ ':' :: p)) = .ok req lg →
      req.Method = String.mk (goToUpper m)) ∧
    (ToHTTPRequest ctx (String.mk (m ++ ':' :: p)) = .panicked ∨
      ∃ req lg, ToHTTPRequest ctx (String.mk (m ++ ':' :: p)) = .ok req lg ∧
        req.Method = String.mk (goToUpper m)) := by
  intro ctx m p hmok
  have hm : ':' ∉ m := colon_not_mem_of_allowed m hmok
  have e1 : goSplitN ':' 3 (m ++ ':' :: p) = m :: goSplitN ':' 2 p := by
    rw [show (3 : Nat) = 1 + 2 by norm_num]
    exact goSplitN_cons ':' 1 _ m p (breakAt_append ':' m p hm)
  have hres : ToHTTPRequest ctx (String.mk (m ++ ':' :: p)) = .panicked ∨
      ∃ (pv : List Char) (bo : Option String) (lg : List String),
        ToHTTPRequest ctx (String.mk (m ++ ':' :: p))
          = .ok ⟨String.mk (goToUpper m), String.mk pv, bo⟩ lg := by
    cases hbp : breakAt ':' p with
    | none =>
      have e2 : goSplitN ':' 2 p = [p] := by
        rw [show (2 : Nat) = 0 + 2 by norm_num]
        simp only [goSplitN, hbp]
      cases hip : interpolatePlaceholders ctx p with
      | mk op lgp =>
        cases op with
        | none =>
          refine Or.inl ?_
          simp only [ToHTTPRequest,
            show (String.mk (m ++ ':' :: p)).toList = m ++ ':' :: p from rfl,
            e1, e2]
          simp only [List.length_cons, List.length_nil, List.headD, List.getD]
          rw [if_neg (by norm_num)]
          simp only [hmok]
          rw [if_neg (by norm_num)]
          rw [if_pos trivial]
          simp [hip]
        | some pv =>
          refine Or.inr ⟨pv, none, lgp, ?_⟩
          simp only [ToHTTPRequest,
            show (String.mk (m ++ ':' :: p)).toList = m ++ ':' :: p from rfl,
            e1, e2]
          simp only [List.length_cons, List.length_nil, List.headD, List.getD]
          rw [if_neg (by norm_num)]
          simp only [hmok]
          rw [if_neg (by norm_num)]
          rw [if_pos trivial]
          simp [hip]
    | some q =>
      obtain ⟨p1, p2⟩ := q
      have e2 : goSplitN ':' 2 p = [p1, p2] := by
        rw [show (2 : Nat) = 0 + 2 by norm_num, goSplitN_cons ':' 0 _ p1 p2 hbp]
        rfl
      cases hip : interpolatePlaceholders ctx p1 with
      | mk op lgp =>
        cases op with
        | none =>
          refine Or.inl ?_
          simp only [ToHTTPRequest,
            show (String.mk (m ++ ':' :: p)).toList = m ++ ':' :: p from rfl,
            e1, e2]
          simp only [List.length_cons, List.length_nil, List.headD, List.getD]
          rw [if_neg (by norm_num)]
          simp only [hmok]
          rw [if_neg (by norm_num)]
          rw [if_neg (by norm_num)]
          simp [hip]
        | some pv =>
          cases hib : interpolatePlaceholders ctx p2 with
          | mk ob lgb =>
            cases ob with
            | none =>
              refine Or.inl ?_
              simp only [ToHTTPRequest,
                show (String.mk (m ++ ':' :: p)).toList = m ++ ':' :: p from rfl,
                e1, e2]
              simp only [List.length_cons, List.length_nil, List.headD, List.getD]
              rw [if_neg (by norm_num)]
              simp only [hmok]
              rw [if_neg (by norm_num)]
              rw [if_neg (by norm_num)]
              simp [hip, hib]
            | some bv =>
              refine Or.inr ⟨pv, some (String.mk bv), lgp ++ lgb, ?_⟩
              simp only [ToHTTPRequest,
                show (String.mk (m ++ ':' :: p)).toList = m ++ ':' :: p from rfl,
                e1, e2]
              simp only [List.length_cons, List.length_nil, List.headD, List.getD]
              rw [if_neg (by norm_num)]
              simp only [hmok]
              rw [if_neg (by norm_num)]
              rw [if_neg (by norm_num)]
              simp [hip, hib]
  refine ⟨?_, ?_, ?_⟩
  · intro msg hbad
    rcases hres with hres | ⟨pv, bo, lg, hres⟩ <;> rw [hres] at hbad <;>
      exact ParseResult.noConfusion hbad
  · intro req lg' hok
    rcases hres with hres | ⟨pv, bo, lg, hres⟩
    · rw [hres] at hok
      exact ParseResult.noConfusion hok
    · rw [hres] at hok
      have h1 := (ParseResult.ok.injEq .. ▸ hok).1
      subst h1
      rfl
  · rcases hres with hres | ⟨pv, bo, lg, hres⟩
    · exact Or.inl hres
    · exact Or.inr ⟨_, _, hres, rfl⟩

/-- Claim C9, witness: `gEt:/x` is never invalid, parses with
`Method = "GET"` whenever it returns a request, and does return one or
panics. -/
theorem claim_C9_witness :
    (∀ msg, ToHTTPRequest ⟨⟨2026, 10, 11⟩, 0, fun _ => 0⟩
        (String.mk ("gEt".toList ++ ':' :: "/x".toList)) ≠ .invalid msg) ∧
    (∀ req lg, ToHTTPRequest ⟨⟨2026, 10, 11⟩, 0, fun _ => 0⟩
        (String.mk ("gEt".toList ++ ':' :: "/x".toList)) = .ok req lg →
      req.Method = String.mk (goToUpper "gEt".toList)) ∧
    (ToHTTPRequest ⟨⟨2026, 10, 11⟩, 0, fun _ => 0⟩
        (String.mk ("gEt".toList ++ ':' :: "/x".toList)) = .panicked ∨
      ∃ req lg, ToHTTPRequest ⟨⟨2026, 10, 11⟩, 0, fun _ => 0⟩
          (String.mk ("gEt".toList ++ ':' :: "/x".toList)) = .ok req lg ∧
        req.Method = String.mk (goToUpper "gEt".toList)) :=
  claim_C9_method_uppercased ⟨⟨2026, 10, 11⟩, 0, fun _ => 0⟩
    "gEt".toList "/x".toList (by rfl)

/-- Claim C10, counterexample: the claim's "in every other case parsing
succeeds" is false of the code — `GET:/p{$range|min=0,max=9223372036854775807}`
has two parts and an allowed method, yet the parse produces no `Request`:
the overflowing range placeholder panics the interpolation pass. -/
theorem claim_C10_counterexample_wellformed_can_panic :
    ¬ ((goSplitN ':' 3
          ("GET:/p\x7b$range|min=0,max=9223372036854775807\x7d" : String).toList).length
            < 2 ∨
        allowedHTTPMethods.contains
          (String.mk (goToUpper ((goSplitN ':' 3
            ("GET:/p\x7b$range|min=0,max=9223372036854775807\x7d" : String).toList).headD
              []))) = false) ∧
    ToHTTPRequest ctxA "GET:/p\x7b$range|min=0,max=9223372036854775807\x7d"
        = .panicked ∧
    ∀ req lg,
      ToHTTPRequest ctxA "GET:/p\x7b$range|min=0,max=9223372036854775807\x7d"
        ≠ .ok req lg := by
  refine ⟨by decide, by rfl, fun req lg h => ?_⟩
  rw [show ToHTTPRequest ctxA "GET:/p\x7b$range|min=0,max=9223372036854775807\x7d"
    = ParseResult.panicked from by rfl] at h
  exact ParseResult.noConfusion h

/-- Claim C10, amended: `ToHTTPRequest` reports the invalid-descriptor
error exactly when the descriptor has fewer than two `:`-delimited parts or
its upper-cased method token is not in the allowed set (that iff holds for
every descriptor); in every other case no validation error exists — the
parse returns a request unless the interpolation pass panics (reachable
only through the int64-overflow range placeholder). -/
theorem claim_C10_invalid_iff :
    ∀ (ctx : InterpCtx) (s : String),
    ((∃ msg, ToHTTPRequest ctx s = .invalid msg) ↔
      ((goSplitN ':' 3 s.toList).length < 2 ∨
        allowedHTTPMethods.contains
          (String.mk (goToUpper ((goSplitN ':' 3 s.toList).headD []))) = false)) ∧
    (¬ ((goSplitN ':' 3 s.toList).length < 2 ∨
        allowedHTTPMethods.contains
          (String.mk (goToUpper ((goSplitN ':' 3 s.toList).headD []))) = false) →
      (∃ req lg, ToHTTPRequest ctx s = .ok req lg) ∨
        ToHTTPRequest ctx s = .panicked) := by
  intro ctx s
  by_cases h2 : (goSplitN ':' 3 s.toList).length < 2
  · have hinv : ToHTTPRequest ctx s = .invalid ("invalid request flag: " ++ s ++
        ", expected format <http-method>:<path>[:body]") := by
      simp only [ToHTTPRequest, if_pos h2]
    exact ⟨⟨fun _ => Or.inl h2, fun _ => ⟨_, hinv⟩⟩, fun hc => absurd (Or.inl h2) hc⟩
  · by_cases hcm : allowedHTTPMethods.contains
        (String.mk (goToUpper ((goSplitN ':' 3 s.toList).headD []))) = false
    · have hinv : ToHTTPRequest ctx s = .invalid ("invalid request flag: " ++ s ++
          ", method " ++ String.mk (goToUpper ((goSplitN ':' 3 s.toList).headD []))
          ++ " is not supported") := by
        simp only [ToHTTPRequest, if_neg h2, if_pos hcm]
      exact ⟨⟨fun _ => Or.inr hcm, fun _ => ⟨_, hinv⟩⟩, fun hc => absurd (Or.inr hcm) hc⟩
    · have hok : (∃ req lg, ToHTTPRequest ctx s = .ok req lg) ∨
          ToHTTPRequest ctx s = .panicked := by
        simp only [ToHTTPRequest, if_neg h2, if_neg hcm]
        by_cases hl2 : (goSplitN ':' 3 s.toList).length = 2
        · rw [if_pos hl2]
          cases hip : interpolatePlaceholders ctx ((goSplitN ':' 3 s.toList).getD 1 []) with
          | mk op lgp =>
            cases op with
            | none => exact Or.inr (by simp [hip])
            | some pv => exact Or.inl (by simp [hip])
        · rw [if_neg hl2]
          cases hip : interpolatePlaceholders ctx ((goSplitN ':' 3 s.toList).getD 1 []) with
          | mk op lgp =>
            cases op with
            | none => exact Or.inr (by simp [hip])
            | some pv =>
              cases hib : interpolatePlaceholders ctx ((goSplitN ':' 3 s.toList).getD 2 []) with
              | mk ob lgb =>
                cases ob with
                | none => exact Or.inr (by simp [hip, hib])
                | some bv => exact Or.inl (by simp [hip, hib])
      refine ⟨⟨?_, fun hc => absurd hc (by tauto)⟩, fun _ => hok⟩
      rintro ⟨msg, hmsg⟩
      rcases hok with ⟨req, lg, hreq⟩ | hpan
      · rw [hreq] at hmsg
        exact absurd hmsg (by simp)
      · rw [hpan] at hmsg
        exact absurd hmsg (by simp)

/-- Claim C10, witness: `foo` (no colon) sits on the invalid side of the
iff, and the second conjunct's implication is inhabited at that instance. -/
theorem claim_C10_witness :
    ((∃ msg, ToHTTPRequest ⟨⟨2026, 10, 11⟩, 0, fun _ => 0⟩ "foo" = .invalid msg) ↔
      ((goSplitN ':' 3 ("foo" : String).toList).length < 2 ∨
        allowedHTTPMethods.contains
          (String.mk (goToUpper ((goSplitN ':' 3 ("foo" : String).toList).headD [])))
            = false)) ∧
    (¬ ((goSplitN ':' 3 ("foo" : String).toList).length < 2 ∨
        allowedHTTPMethods.contains
          (String.mk (goToUpper ((goSplitN ':' 3 ("foo" : String).toList).headD [])))
            = false) →
      (∃ req lg, ToHTTPRequest ⟨⟨2026, 10, 11⟩, 0, fun _ => 0⟩ "foo" = .ok req lg) ∨
        ToHTTPRequest ⟨⟨2026, 10, 11⟩, 0, fun _ => 0⟩ "foo" = .panicked) :=
  claim_C10_invalid_iff ⟨⟨2026, 10, 11⟩, 0, fun _ => 0⟩ "foo"

/-- Claim C3, amended: the currentDate offsets use sign syntax
(`days+1`, not `days=1`).  For every call time: `{$currentDate|days+1}`
interpolates to `Format(AddDate(now, 0, 0, 1))`, which for a valid date is
exactly one step forward on the code's own day-number line (and is the
naive calendar successor on representative month/year/leap boundaries);
`{$currentDate}` renders today; omitted components default to zero; and a
combined `days+2,months+1,years-3` feeds all three offsets through. -/
theorem claim_C3_currentDate_signed_offsets :
    (∀ (now : GoDate) (nanos : Int) (rng : Nat → Nat),
      interpolateS ⟨now, nanos, rng⟩ "\x7b$currentDate|days+1\x7d"
        = (some (String.mk (goFormatDate (goAddDate now 0 0 1))), [])) ∧
    (∀ now : GoDate, ValidDate now →
      goDaysFromCivil (goAddDate now 0 0 1).year (goAddDate now 0 0 1).month
          (goAddDate now 0 0 1).day
        = goDaysFromCivil now.year now.month now.day + 1) ∧
    (∀ (now : GoDate) (nanos : Int) (rng : Nat → Nat),
      interpolateS ⟨now, nanos, rng⟩ "\x7b$currentDate\x7d"
        = (some (String.mk (goFormatDate (goAddDate now 0 0 0))), [])) ∧
    (∀ (now : GoDate) (nanos : Int) (rng : Nat → Nat),
      interpolateS ⟨now, nanos, rng⟩ "\x7b$currentDate|days+2,months+1,years-3\x7d"
        = (some (String.mk (goFormatDate (goAddDate now (-3) 1 2))), [])) ∧
    (goAddDate ⟨2026, 10, 11⟩ 0 0 1 = nextDayCivil ⟨2026, 10, 11⟩ ∧
      goAddDate ⟨2024, 2, 28⟩ 0 0 1 = nextDayCivil ⟨2024, 2, 28⟩ ∧
      goAddDate ⟨2024, 2, 29⟩ 0 0 1 = nextDayCivil ⟨2024, 2, 29⟩ ∧
      goAddDate ⟨2023, 12, 31⟩ 0 0 1 = nextDayCivil ⟨2023, 12, 31⟩ ∧
      goAddDate ⟨1999, 12, 31⟩ 0 0 1 = nextDayCivil ⟨1999, 12, 31⟩ ∧
      goAddDate ⟨2000, 2, 28⟩ 0 0 1 = nextDayCivil ⟨2000, 2, 28⟩ ∧
      goAddDate ⟨1900, 2, 28⟩ 0 0 1 = nextDayCivil ⟨1900, 2, 28⟩) := by
  refine ⟨?_, addDate_one_day, ?_, ?_, by decide, by decide, by decide, by decide,
    by decide, by decide, by decide⟩
  · intro now nanos rng
    simp only [interpolateS, interpolatePlaceholders]
    rw [show ("\x7b$currentDate|days+1\x7d".toList.length + 1) = 21 + 1 by rfl]
    rw [interpAux_found ⟨now, nanos, rng⟩ "\x7b$currentDate|days+1\x7d".toList 21
        "\x7b$currentDate|days+1\x7d".toList [] "\x7b$currentDate|days+1\x7d".toList []
        [(1, "currentDate|days+1".toList)] (by rfl)]
    rw [show replaceCallback ⟨now, nanos, rng⟩ "\x7b$currentDate|days+1\x7d".toList
          "\x7b$currentDate|days+1\x7d".toList
        = (some (dateElements now "\x7b$currentDate|days+1\x7d".toList), []) by rfl]
    rw [show dateElements now "\x7b$currentDate|days+1\x7d".toList
        = goFormatDate (goAddDate now 0 0 1) from rfl]
    rw [show interpAux ⟨now, nanos, rng⟩ "\x7b$currentDate|days+1\x7d".toList 21
        ([] : List Char) = (some [], []) from rfl]
    simp
  · intro now nanos rng
    simp only [interpolateS, interpolatePlaceholders]
    rw [show ("\x7b$currentDate\x7d".toList.length + 1) = 14 + 1 by rfl]
    rw [interpAux_found ⟨now, nanos, rng⟩ "\x7b$currentDate\x7d".toList 14
        "\x7b$currentDate\x7d".toList [] "\x7b$currentDate\x7d".toList []
        [(1, "currentDate".toList)] (by rfl)]
    rw [show replaceCallback ⟨now, nanos, rng⟩ "\x7b$currentDate\x7d".toList
          "\x7b$currentDate\x7d".toList
        = (some (dateElements now "\x7b$currentDate\x7d".toList), []) by rfl]
    rw [show dateElements now "\x7b$currentDate\x7d".toList
        = goFormatDate (goAddDate now 0 0 0) from rfl]
    rw [show interpAux ⟨now, nanos, rng⟩ "\x7b$currentDate\x7d".toList 14
        ([] : List Char) = (some [], []) from rfl]
    simp
  · intro now nanos rng
    simp only [interpolateS, interpolatePlaceholders]
    rw [show ("\x7b$currentDate|days+2,months+1,years-3\x7d".toList.length + 1)
        = 38 + 1 by rfl]
    rw [interpAux_found ⟨now, nanos, rng⟩
        "\x7b$currentDate|days+2,months+1,years-3\x7d".toList 38
        "\x7b$currentDate|days+2,months+1,years-3\x7d".toList []
        "\x7b$currentDate|days+2,months+1,years-3\x7d".toList []
        [(1, "currentDate|days+2,months+1,years-3".toList)] (by rfl)]
    rw [show replaceCallback ⟨now, nanos, rng⟩
          "\x7b$currentDate|days+2,months+1,years-3\x7d".toList
          "\x7b$currentDate|days+2,months+1,years-3\x7d".toList
        = (some (dateElements now
            "\x7b$currentDate|days+2,months+1,years-3\x7d".toList), []) by rfl]
    rw [show dateElements now "\x7b$currentDate|days+2,months+1,years-3\x7d".toList
        = goFormatDate (goAddDate now (-3) 1 2) from rfl]
    rw [show interpAux ⟨now, nanos, rng⟩
        "\x7b$currentDate|days+2,months+1,years-3\x7d".toList 38
        ([] : List Char) = (some [], []) from rfl]
    simp

/-- Claim C3, witness: at call time 2026-10-11 the placeholder renders
`AddDate(0,0,1)` of that date, one day later on the day-number line. -/
theorem claim_C3_witness :
    interpolateS ⟨⟨2026, 10, 11⟩, 0, fun _ => 0⟩ "\x7b$currentDate|days+1\x7d"
        = (some (String.mk (goFormatDate (goAddDate ⟨2026, 10, 11⟩ 0 0 1))), []) ∧
    goDaysFromCivil (goAddDate ⟨2026, 10, 11⟩ 0 0 1).year
        (goAddDate ⟨2026, 10, 11⟩ 0 0 1).month (goAddDate ⟨2026, 10, 11⟩ 0 0 1).day
      = goDaysFromCivil 2026 10 11 + 1 :=
  ⟨claim_C3_currentDate_signed_offsets.1 ⟨2026, 10, 11⟩ 0 (fun _ => 0),
    claim_C3_currentDate_signed_offsets.2.1 ⟨2026, 10, 11⟩ (by decide)⟩

end Mittens
